import Mathlib

/-!
Verification of the result-normalization, classification and reporting engine
of the playwright-bdd email-report pipeline.

The definitions below are a shallow embedding of the TypeScript source:
* `normalizeTest` embeds the per-test body of `flattenSuites`
  (generate-email-report script);
* `staticFold` embeds the per-record counter fold of `generateDetailedReport`;
* `onTestEndStep` embeds the status classification and counter updates of
  `CustomEmailReporter.onTestEnd`;
* `testCaseIdOf` and `groupStatusStep` embed the grouping-key selection and
  overall-status fold of `generateTestMatrixRows` / `generateUltimateEmailHTML`
  in `sendEmailReport.ts`;
* `escapeHtml` embeds the `escapeHtml` helper of `sendEmailReport.ts`;
* `basicScenarioStatus` embeds the scenario classification of
  `generateBasicEmailHTML`;
* `notRunCount` embeds the `notRun` computation of
  `CustomEmailReporter.onEnd`;
* `pollFinalAttempts` / `generateReportOutcome` embed the bounded
  wait-and-retry poll of `generateDetailedReport`.
-/

/-- Raw and derived test statuses.  The first five are the raw statuses a
single attempt may carry; `flaky` is only ever produced by classification. -/
inductive Status where
  | passed
  | failed
  | skipped
  | timedOut
  | interrupted
  | flaky
deriving DecidableEq, Repr

/-- One execution attempt of one test (`PlaywrightTestResult` in the source:
only the fields the classification and aggregation logic reads). -/
structure TestResult where
  status : Status
  duration : Nat
deriving DecidableEq, Repr

/-- One declared test with its ordered retry attempts (`PlaywrightTest`). -/
structure PWTest where
  testId : String
  title : String
  results : List TestResult
deriving DecidableEq, Repr

/-- One spec grouping several tests (`PlaywrightSpec`). -/
structure PWSpec where
  title : String
  tests : List PWTest
deriving DecidableEq, Repr

/-- A suite node of the hierarchical input document (`PlaywrightSuite`):
suites nest suites and carry specs. -/
inductive PWSuite where
  | mk (title : String) (file : Option String) (specs : List PWSpec)
      (suites : List PWSuite)
deriving Repr

/-- The normalized flat record produced for one logical test (the object
pushed onto `allTests` in `flattenSuites`). -/
structure Record where
  testId : String
  title : String
  file : String
  suiteName : String
  status : Status
  duration : Nat
  retries : Nat
  isFlaky : Bool
deriving DecidableEq, Repr

/-- Per-test body of `flattenSuites`: given the enclosing spec title, the
suite file name and the accumulated suite path, turn one test into its
normalized record; a test with no results contributes nothing. -/
def normalizeTest (specTitle fileName currentPath : String) (t : PWTest) :
    Option Record :=
  match t.results.getLast? with
  | none => none
  | some lastResult =>
    let isFlaky : Bool :=
      decide (1 < t.results.length) && decide (lastResult.status = .passed)
    some
      { testId := t.testId
        title := specTitle
        file := fileName
        suiteName := currentPath
        status := if isFlaky then .flaky else lastResult.status
        duration := lastResult.duration
        retries := t.results.length - 1
        isFlaky := isFlaky }

/-- The six status counters plus summed duration of a `SuiteResult`. -/
structure Counters where
  passed : Nat
  failed : Nat
  skipped : Nat
  flaky : Nat
  interrupted : Nat
  total : Nat
  duration : Nat
deriving DecidableEq, Repr

def zeroCounters : Counters := ⟨0, 0, 0, 0, 0, 0, 0⟩

/-- Static-mode counter fold of `generateDetailedReport`: how one normalized
record updates its suite's counters. -/
def staticFold (c : Counters) (r : Record) : Counters :=
  let c := { c with total := c.total + 1, duration := c.duration + r.duration }
  if r.isFlaky then { c with flaky := c.flaky + 1 }
  else if r.status = .passed then { c with passed := c.passed + 1 }
  else if r.status = .failed then { c with failed := c.failed + 1 }
  else if r.status = .skipped then { c with skipped := c.skipped + 1 }
  else if r.status = .interrupted ∨ r.status = .timedOut then
    { c with interrupted := c.interrupted + 1 }
  else c

/-- The status-bearing part of the record the live reporter pushes in
`onTestEnd` (`DetailedTestResult`, restricted to the classification fields). -/
structure LiveRecord where
  status : Status
  duration : Nat
  retries : Nat
  isFlaky : Bool
deriving DecidableEq, Repr

/-- Live-mode step of `CustomEmailReporter.onTestEnd`: from the incoming
result's raw status, retry index and duration, produce the stored record and
the updated suite counters, exactly following the if/else chain of the
source (including the final `total`/`duration` bumps). -/
def onTestEndStep (c : Counters) (resultStatus : Status)
    (retry duration : Nat) : LiveRecord × Counters :=
  let isFlaky : Bool := decide (0 < retry) && decide (resultStatus = .passed)
  let (st, c1) :=
    if resultStatus = .skipped then
      (Status.skipped, { c with skipped := c.skipped + 1 })
    else if resultStatus = .interrupted then
      (Status.interrupted, { c with interrupted := c.interrupted + 1 })
    else if resultStatus = .timedOut then
      (Status.timedOut, { c with failed := c.failed + 1 })
    else if isFlaky then
      (Status.flaky, { c with flaky := c.flaky + 1, passed := c.passed + 1 })
    else if resultStatus = .passed then
      (Status.passed, { c with passed := c.passed + 1 })
    else
      (Status.failed, { c with failed := c.failed + 1 })
  (⟨st, duration, retry, isFlaky⟩,
    { c1 with total := c1.total + 1, duration := c1.duration + duration })

/-- Recursive flattening of the hierarchical document (`flattenSuites`):
a suite contributes its own specs' tests and recurses into child suites,
extending the suite path with the source's separator. -/
def flattenSuites : PWSuite → String → List Record
  | .mk title file specs suites, suitePath =>
    let currentPath := if suitePath = "" then title
      else suitePath ++ " › " ++ title
    let fileName := file.getD "unknown"
    (specs.flatMap fun sp =>
      sp.tests.filterMap (normalizeTest sp.title fileName currentPath))
      ++ suites.attach.flatMap fun c => flattenSuites c.1 currentPath
termination_by s _ => sizeOf s
decreasing_by
  simp_wf
  have h := List.sizeOf_lt_of_mem c.2
  omega

/-- Leftmost match of the case-id pattern at the head of the character list:
the literal prefix letters, a dash, then one or more digits (greedy). -/
def ripaAt : List Char → Option (List Char)
  | 'R' :: 'I' :: 'P' :: 'A' :: '-' :: rest =>
    let ds := rest.takeWhile Char.isDigit
    if ds.isEmpty then none
    else some (['R', 'I', 'P', 'A', '-'] ++ ds)
  | _ => none

/-- First (leftmost) match of the case-id pattern anywhere in the list,
mirroring the JS regex search used on the record's file path. -/
def findRipa : List Char → Option (List Char)
  | [] => none
  | c :: rest =>
    match ripaAt (c :: rest) with
    | some m => some m
    | none => findRipa rest

/-- Grouping-key selection of `generateTestMatrixRows` /
`generateUltimateEmailHTML`: the pattern-extracted id from the file if it
matches, else the suite's name, else the literal fallback. -/
def testCaseIdOf (suiteName file : String) : String :=
  match findRipa file.data with
  | some m => String.mk m
  | none => if suiteName = "" then "Unknown" else suiteName

/-- Per-record update of a test case's overall status ("failed takes
precedence", then skipped) of the grouping engine. -/
def groupStatusStep (acc s : Status) : Status :=
  if s = .failed then .failed
  else if s = .skipped ∧ acc ≠ .failed then .skipped
  else acc

/-- Overall status of a bucket of member record statuses, starting from the
engine's initial value `passed`. -/
def groupOverallStatus (l : List Status) : Status :=
  l.foldl groupStatusStep .passed

/-- Per-character replacement table of `escapeHtml` (`&amp;`, `&lt;`,
`&gt;`, `&quot;`, `&#039;`, spelled as character lists). -/
def escapeChar (c : Char) : List Char :=
  if c = '&' then ['&', 'a', 'm', 'p', ';']
  else if c = '<' then ['&', 'l', 't', ';']
  else if c = '>' then ['&', 'g', 't', ';']
  else if c = '"' then ['&', 'q', 'u', 'o', 't', ';']
  else if c = Char.ofNat 39 then ['&', '#', '0', '3', '9', ';']
  else [c]

/-- Global single-character-class regex replace of `escapeHtml`. -/
def escapeHtml (s : String) : String := String.mk (s.data.flatMap escapeChar)

/-- The five entities the escaper may introduce. -/
def htmlEntities : List (List Char) :=
  [['&', 'a', 'm', 'p', ';'], ['&', 'l', 't', ';'], ['&', 'g', 't', ';'],
   ['&', 'q', 'u', 'o', 't', ';'], ['&', '#', '0', '3', '9', ';']]

/-- Every occurrence of an ampersand in the list begins one of the five
escape entities. -/
def ampOk (m : List Char) : Prop :=
  ∀ pre suf, m = pre ++ '&' :: suf →
    ∃ e ∈ htmlEntities, ∃ rest, '&' :: suf = e ++ rest

/-- Degraded-mode scenario classification of `generateBasicEmailHTML`:
passed when every result of every test under the spec passed, else failed. -/
def basicScenarioStatus (sp : PWSpec) : Status :=
  if sp.tests.all fun t => t.results.all fun r => r.status = .passed then
    .passed
  else .failed

/-- `notRun` computation of `CustomEmailReporter.onEnd`: declared-set size
minus executed-set size (as a signed integer, since the source subtracts
plain JS numbers). -/
def notRunCount (declared executed : Finset String) : Int :=
  (declared.card : Int) - (executed.card : Int)

/-- Poll ceiling of `generateDetailedReport`. -/
def maxAttempts : Nat := 10

/-- Poll interval of `generateDetailedReport`, in milliseconds. -/
def pollIntervalMs : Nat := 500

/-- The wait loop of `generateDetailedReport`: while the artifact is absent
and attempts remain, sleep and increment; `available k` tells whether the
artifact exists when checked with the attempts counter at `k`. -/
def pollLoop (available : Nat → Bool) : Nat → Nat → Nat
  | attempts, 0 => attempts
  | attempts, fuel + 1 =>
    if available attempts then attempts
    else pollLoop available (attempts + 1) fuel

/-- Final value of the attempts counter after the bounded wait. -/
def pollFinalAttempts (available : Nat → Bool) : Nat :=
  pollLoop available 0 maxAttempts

/-- Total time slept across the bounded wait. -/
def totalWaitMs (available : Nat → Bool) : Nat :=
  pollFinalAttempts available * pollIntervalMs

/-- Outcome of `generateDetailedReport`'s artifact check. -/
inductive ReportOutcome where
  | exitCode (n : Nat)
  | proceed
deriving DecidableEq, Repr

/-- The post-loop existence check: absent artifact exits gracefully with
code zero, otherwise generation proceeds. -/
def generateReportOutcome (available : Nat → Bool) : ReportOutcome :=
  if available (pollFinalAttempts available) then .proceed
  else .exitCode 0

/-- Declared-test set for the synthetic C7 run. -/
def declaredFive : Finset String := {"t1", "t2", "t3", "t4", "t5"}

/-- Executed-test set for the synthetic C7 run. -/
def executedThree : Finset String := {"t1", "t2", "t3"}

/-- A logical test whose single attempt timed out. -/
def tTimedOut : PWTest := ⟨"id1", "T1", [⟨.timedOut, 100⟩]⟩

/-- The normalized record `flattenSuites` produces for `tTimedOut`. -/
def recTimedOut : Record :=
  ⟨"id1", "T1", "f.spec.ts", "Suite", .timedOut, 100, 0, false⟩

/-- A logical test that failed once and then passed on retry. -/
def tFlaky : PWTest := ⟨"id2", "T2", [⟨.failed, 50⟩, ⟨.passed, 70⟩]⟩

/-- The normalized record `flattenSuites` produces for `tFlaky`. -/
def recFlaky : Record :=
  ⟨"id2", "T2", "f.spec.ts", "Suite", .flaky, 70, 1, true⟩

-- sanity checks (scratch)
example : (onTestEndStep zeroCounters .timedOut 0 100).2.failed = 1 := by decide
example : normalizeTest "T" "f" "p" ⟨"id", "T", [⟨.timedOut, 100⟩]⟩ =
    some ⟨"id", "T", "f", "p", .timedOut, 100, 0, false⟩ := by decide
example : (staticFold zeroCounters ⟨"id", "T", "f", "p", .timedOut, 100, 0, false⟩).interrupted = 1 := by decide
example : (staticFold zeroCounters ⟨"id", "T", "f", "p", .flaky, 70, 1, true⟩).passed = 0 := by decide
example : testCaseIdOf "Login" "tests/RIPA-14860-login.spec.ts" = "RIPA-14860" := by decide
example : testCaseIdOf "" "login.spec.ts" = "Unknown" := by decide
example : groupOverallStatus [.flaky, .passed] = .passed := by decide
example : groupOverallStatus [.skipped, .failed, .passed] = .failed := by decide
example : escapeHtml "a<b&c" = "a&lt;b&amp;c" := by decide
example : basicScenarioStatus ⟨"s", [⟨"i", "t", [⟨.failed, 5⟩, ⟨.passed, 7⟩]⟩]⟩ = .failed := by decide
example : pollFinalAttempts (fun _ => false) = 10 := by decide
example : generateReportOutcome (fun _ => false) = .exitCode 0 := by decide
example : generateReportOutcome (fun k => decide (k = 3)) = .proceed := by decide
example : flattenSuites (.mk "Root" (some "a.spec.ts")
    [⟨"create asset", [⟨"i1", "create asset", [⟨.failed, 5⟩, ⟨.passed, 7⟩]⟩]⟩]
    [.mk "Child" none [⟨"c", [⟨"i2", "c", [⟨.passed, 3⟩]⟩]⟩] []]) "" =
  [⟨"i1", "create asset", "a.spec.ts", "Root", .flaky, 7, 1, true⟩,
   ⟨"i2", "c", "unknown", "Root › Child", .passed, 3, 0, false⟩] := by
  simp [flattenSuites, normalizeTest]

/-! ## Helper lemmas -/

lemma pollLoop_le (available : Nat → Bool) (a f : Nat) :
    pollLoop available a f ≤ a + f := by
  induction f generalizing a with
  | zero => simp [pollLoop]
  | succ n ih =>
    simp only [pollLoop]
    split
    · omega
    · have := ih (a + 1)
      omega

lemma pollLoop_allFalse (available : Nat → Bool)
    (h : ∀ k, available k = false) (a f : Nat) :
    pollLoop available a f = a + f := by
  induction f generalizing a with
  | zero => simp [pollLoop]
  | succ n ih =>
    simp only [pollLoop, h a]
    simp only [Bool.false_eq_true, if_false]
    rw [ih (a + 1)]
    omega

set_option linter.unreachableTactic false in
set_option linter.unusedTactic false in
lemma groupStatus_foldl (l : List Status) (acc : Status) :
    l.foldl groupStatusStep acc =
      if acc = .failed ∨ .failed ∈ l then .failed
      else if acc = .skipped ∨ .skipped ∈ l then .skipped
      else acc := by
  induction l generalizing acc with
  | nil =>
    simp only [List.foldl_nil, List.not_mem_nil, or_false]
    split_ifs <;> simp_all
  | cons c t ih =>
    simp only [List.foldl_cons, ih, List.mem_cons]
    cases c <;> cases acc <;>
      simp [groupStatusStep] <;> split_ifs <;> simp_all

/-! ## Theorems for the claims -/

/-- Claim C9: when the input artifact is absent, `generateDetailedReport`
polls at a fixed 500 ms interval for at most 10 attempts, and if the
artifact is still absent after the bounded wait the process terminates
gracefully with exit code zero. -/
theorem c9_bounded_poll_graceful_exit (available : Nat → Bool) :
    pollFinalAttempts available ≤ maxAttempts ∧
    totalWaitMs available = pollFinalAttempts available * pollIntervalMs ∧
    ((∀ k, available k = false) →
      pollFinalAttempts available = maxAttempts ∧
      generateReportOutcome available = .exitCode 0) := by
  refine ⟨?_, rfl, ?_⟩
  · have := pollLoop_le available 0 maxAttempts
    simpa [pollFinalAttempts] using this
  · intro h
    have hfin : pollFinalAttempts available = maxAttempts := by
      simpa [pollFinalAttempts] using pollLoop_allFalse available h 0 maxAttempts
    refine ⟨hfin, ?_⟩
    simp [generateReportOutcome, h]

/-- Witness for C9: a run in which the artifact never appears uses all
10 attempts and exits with code zero. -/
theorem c9_witness :
    pollFinalAttempts (fun _ => false) = maxAttempts ∧
    generateReportOutcome (fun _ => false) = .exitCode 0 :=
  (c9_bounded_poll_graceful_exit (fun _ => false)).2.2 (fun _ => rfl)

/-- Claim C7: the live reporter's `notRun` equals declared minus executed;
when every executed test id was declared it is never negative, and
5 declared with 3 executed yields 2. -/
theorem c7_notRun_declared_minus_executed
    (declared executed : Finset String) (h : executed ⊆ declared) :
    notRunCount declared executed =
      (declared.card : Int) - (executed.card : Int) ∧
    0 ≤ notRunCount declared executed ∧
    (declared.card = 5 → executed.card = 3 →
      notRunCount declared executed = 2) := by
  have hle := Finset.card_le_card h
  refine ⟨rfl, ?_, ?_⟩
  · simp only [notRunCount]
    omega
  · intro h5 h3
    simp [notRunCount, h5, h3]

/-- Witness for C7: the synthetic 5-declared / 3-executed run. -/
theorem c7_witness :
    executedThree ⊆ declaredFive ∧
    0 ≤ notRunCount declaredFive executedThree ∧
    notRunCount declaredFive executedThree = 2 := by
  have h : executedThree ⊆ declaredFive := by decide
  exact ⟨h, (c7_notRun_declared_minus_executed _ _ h).2.1,
    (c7_notRun_declared_minus_executed _ _ h).2.2 (by decide) (by decide)⟩

/-- Claim C3 (code behavior at the failing input): the grouping engine
prefers the pattern-extracted file id over the suite name, and when neither
yields a key it falls back to the literal "Unknown", never the record's
title — contradicting the documented suiteName-first fallback chain. -/
theorem c3_grouping_key_code_behavior :
    testCaseIdOf "Login" "tests/RIPA-14860-login.spec.ts" = "RIPA-14860" ∧
    testCaseIdOf "Login" "tests/RIPA-14860-login.spec.ts" ≠ "Login" ∧
    testCaseIdOf "" "login.spec.ts" = "Unknown" := by
  decide

/-- Claim C6: a group's overall status is failed when any member failed,
else skipped when any member was skipped, else passed; a group of only
flaky/passed members is passed; and the characterization is computed by the
per-record fold step. -/
theorem c6_group_overall_status (l : List Status) :
    groupOverallStatus l =
      (if .failed ∈ l then .failed
       else if .skipped ∈ l then .skipped
       else .passed) ∧
    ((∀ s ∈ l, s = .flaky ∨ s = .passed) → groupOverallStatus l = .passed) ∧
    (∀ s : Status,
      groupOverallStatus (l ++ [s]) =
        groupStatusStep (groupOverallStatus l) s) := by
  have h := groupStatus_foldl l .passed
  refine ⟨?_, ?_, ?_⟩
  · simpa [groupOverallStatus] using h
  · intro hall
    have hf : Status.failed ∉ l := by
      intro hm
      rcases hall _ hm with h1 | h1 <;> simp at h1
    have hs : Status.skipped ∉ l := by
      intro hm
      rcases hall _ hm with h1 | h1 <;> simp at h1
    simp only [groupOverallStatus] at h
    simp [groupOverallStatus, h, hf, hs]
  · intro s
    simp [groupOverallStatus, List.foldl_append]

/-- Witness for C6: a group whose only members are a flaky and a passed
record has overall status passed. -/
theorem c6_witness :
    groupOverallStatus [Status.flaky, Status.passed] = .passed :=
  (c6_group_overall_status [Status.flaky, Status.passed]).2.1 (by decide)

/-- Claim C5: a logical test with more than one attempt, last attempt
passed and some earlier attempt not passed, normalizes to a flaky record
with flaky flag set and retries = attempts − 1 (in both the static and the
live classification); a single passed attempt normalizes to a passed,
non-flaky record. -/
theorem c5_flaky_classification :
    (∀ (t : PWTest) (st fn cp : String) (lr : TestResult),
      t.results.getLast? = some lr → lr.status = .passed →
      1 < t.results.length →
      (∃ r ∈ t.results, r.status ≠ .passed) →
      normalizeTest st fn cp t =
        some { testId := t.testId, title := st, file := fn, suiteName := cp,
               status := .flaky, duration := lr.duration,
               retries := t.results.length - 1, isFlaky := true } ∧
      (∀ c : Counters,
        (onTestEndStep c lr.status (t.results.length - 1) lr.duration).1 =
          ⟨.flaky, lr.duration, t.results.length - 1, true⟩)) ∧
    (∀ (t : PWTest) (st fn cp : String) (r : TestResult),
      t.results = [r] → r.status = .passed →
      normalizeTest st fn cp t =
        some { testId := t.testId, title := st, file := fn, suiteName := cp,
               status := .passed, duration := r.duration,
               retries := 0, isFlaky := false } ∧
      (∀ c : Counters,
        (onTestEndStep c r.status 0 r.duration).1 =
          ⟨.passed, r.duration, 0, false⟩)) := by
  constructor
  · intro t st fn cp lr hlast hpassed hlen _hne
    constructor
    · simp [normalizeTest, hlast, hpassed, hlen]
    · intro c
      have hretry : 0 < t.results.length - 1 := by omega
      simp [onTestEndStep, hpassed, hretry]
  · intro t st fn cp r hres hpassed
    constructor
    · simp [normalizeTest, hres, hpassed]
    · intro c
      simp [onTestEndStep, hpassed]

/-- Witness for C5: the two-attempt failed-then-passed test is flaky with
one retry; the single passed attempt is a clean pass. -/
theorem c5_witness :
    normalizeTest "create asset" "a.spec.ts" "Login" tFlaky =
      some ⟨"id2", "create asset", "a.spec.ts", "Login", .flaky, 70, 1, true⟩ ∧
    normalizeTest "single" "b.spec.ts" "Login" ⟨"id3", "single", [⟨.passed, 3⟩]⟩ =
      some ⟨"id3", "single", "b.spec.ts", "Login", .passed, 3, 0, false⟩ := by
  constructor
  · exact (c5_flaky_classification.1 tFlaky "create asset" "a.spec.ts" "Login"
      ⟨.passed, 70⟩ (by decide) rfl (by decide) (by decide)).1
  · exact (c5_flaky_classification.2 ⟨"id3", "single", [⟨.passed, 3⟩]⟩
      "single" "b.spec.ts" "Login" ⟨.passed, 3⟩ rfl rfl).1

/-- Claim C10: in degraded (basic) mode a scenario is passed exactly when
every result attempt of every test under its spec passed; any non-passed
attempt forces failed; in particular a flaky test (failed earlier, passed
last, classified flaky by canonical normalization) counts as failed in the
degraded renderer. -/
theorem c10_basic_mode (sp : PWSpec) :
    (basicScenarioStatus sp = .passed ↔
      ∀ t ∈ sp.tests, ∀ r ∈ t.results, r.status = .passed) ∧
    (∀ t ∈ sp.tests, ∀ r ∈ t.results, r.status ≠ .passed →
      basicScenarioStatus sp = .failed) ∧
    (∀ t ∈ sp.tests, ∀ st fn cp : String, ∀ r ∈ t.results, ∀ lr,
      r.status = .failed → t.results.getLast? = some lr →
      lr.status = .passed →
      basicScenarioStatus sp = .failed ∧
      ∃ rec, normalizeTest st fn cp t = some rec ∧
        rec.status = .flaky ∧ rec.isFlaky = true) := by
  have hiff : basicScenarioStatus sp = .passed ↔
      ∀ t ∈ sp.tests, ∀ r ∈ t.results, r.status = .passed := by
    unfold basicScenarioStatus
    split
    · rename_i h
      simp only [List.all_eq_true, decide_eq_true_eq] at h
      exact ⟨fun _ => h, fun _ => rfl⟩
    · rename_i h
      simp only [List.all_eq_true, decide_eq_true_eq] at h
      constructor
      · intro hc
        exact absurd hc (by decide)
      · intro hall
        exact absurd hall h
  have hfailed : ∀ t ∈ sp.tests, ∀ r ∈ t.results, r.status ≠ .passed →
      basicScenarioStatus sp = .failed := by
    intro t ht r hr hne
    have hnp : basicScenarioStatus sp ≠ .passed := by
      intro hp
      exact hne (hiff.1 hp t ht r hr)
    have : basicScenarioStatus sp = .passed ∨
        basicScenarioStatus sp = .failed := by
      unfold basicScenarioStatus
      split <;> simp
    tauto
  refine ⟨hiff, hfailed, ?_⟩
  intro t ht st fn cp r hr lr hrf hlast hlrp
  have hb : basicScenarioStatus sp = .failed := by
    apply hfailed t ht r hr
    rw [hrf]
    decide
  have hne : t.results ≠ [] := by
    intro h
    rw [h] at hr
    exact absurd hr (List.not_mem_nil r)
  have hlen : 1 < t.results.length := by
    by_contra hle
    push_neg at hle
    have h0 : 0 < t.results.length := List.length_pos.mpr hne
    have h1 : t.results.length = 1 := by omega
    obtain ⟨a, ha⟩ := List.length_eq_one.mp h1
    rw [ha] at hr hlast
    simp only [List.mem_singleton] at hr
    simp only [List.getLast?_singleton, Option.some.injEq] at hlast
    rw [hr] at hrf
    rw [← hlast] at hlrp
    rw [hrf] at hlrp
    exact absurd hlrp (by decide)
  refine ⟨hb,
    ⟨{ testId := t.testId, title := st, file := fn, suiteName := cp,
       status := .flaky, duration := lr.duration,
       retries := t.results.length - 1, isFlaky := true }, ?_, rfl, rfl⟩⟩
  simp [normalizeTest, hlast, hlrp, hlen]

/-- Witness for C10: a spec whose only test failed once then passed on
retry is failed in basic mode, while canonical normalization marks it
flaky. -/
theorem c10_witness :
    basicScenarioStatus ⟨"create asset", [tFlaky]⟩ = .failed ∧
    ∃ rec, normalizeTest "create asset" "a.spec.ts" "Login" tFlaky =
        some rec ∧ rec.status = .flaky ∧ rec.isFlaky = true :=
  (c10_basic_mode ⟨"create asset", [tFlaky]⟩).2.2 tFlaky (by decide)
    "create asset" "a.spec.ts" "Login" ⟨.failed, 50⟩ (by decide)
    ⟨.passed, 70⟩ rfl (by decide) rfl

lemma ampOk_nil : ampOk [] := by
  intro pre suf h
  exact absurd h (by simp)

lemma ampOk_cons (c : Char) (hc : c ≠ '&') (m : List Char) (hm : ampOk m) :
    ampOk (c :: m) := by
  intro pre suf h
  cases pre with
  | nil =>
    simp only [List.nil_append] at h
    injection h with h1 h2
    exact absurd h1 hc
  | cons p pre2 =>
    simp only [List.cons_append] at h
    injection h with h1 h2
    exact hm pre2 suf h2

lemma ampOk_block (e tail : List Char) (hsplit : e = '&' :: tail)
    (htail : '&' ∉ tail) (hent : e ∈ htmlEntities)
    (m : List Char) (hm : ampOk m) : ampOk (e ++ m) := by
  intro pre suf h
  cases pre with
  | nil =>
    simp only [List.nil_append] at h
    exact ⟨e, hent, m, h.symm⟩
  | cons p pre2 =>
    rw [hsplit] at h
    simp only [List.cons_append] at h
    injection h with h1 h2
    rcases List.append_eq_append_iff.mp h2 with ⟨a2, _ha1, ha2⟩ | ⟨c2, hc1, hc2⟩
    · exact hm a2 suf ha2
    · cases c2 with
      | nil =>
        simp only [List.nil_append] at hc2
        exact hm [] suf (by simpa using hc2.symm)
      | cons x xs =>
        simp only [List.cons_append] at hc2
        injection hc2 with hx _hxs
        apply absurd _ htail
        rw [hc1, ← hx]
        exact List.mem_append_right pre2 (List.mem_cons_self _ _)

lemma escapeChar_block (c : Char) :
    (∃ tail, escapeChar c = '&' :: tail ∧ ('&' : Char) ∉ tail ∧
      escapeChar c ∈ htmlEntities) ∨
    (escapeChar c = [c] ∧ c ≠ '&') := by
  by_cases h1 : c = '&'
  · subst h1
    exact Or.inl ⟨['a', 'm', 'p', ';'], by decide, by decide, by decide⟩
  · by_cases h2 : c = '<'
    · subst h2
      exact Or.inl ⟨['l', 't', ';'], by decide, by decide, by decide⟩
    · by_cases h3 : c = '>'
      · subst h3
        exact Or.inl ⟨['g', 't', ';'], by decide, by decide, by decide⟩
      · by_cases h4 : c = '"'
        · subst h4
          exact Or.inl ⟨['q', 'u', 'o', 't', ';'], by decide, by decide, by decide⟩
        · by_cases h5 : c = Char.ofNat 39
          · subst h5
            exact Or.inl ⟨['#', '0', '3', '9', ';'], by decide, by decide, by decide⟩
          · exact Or.inr ⟨by simp [escapeChar, h1, h2, h3, h4, h5], h1⟩

lemma escape_ampOk (l : List Char) : ampOk (l.flatMap escapeChar) := by
  induction l with
  | nil => exact ampOk_nil
  | cons c t ih =>
    have hstep : (c :: t).flatMap escapeChar =
        escapeChar c ++ t.flatMap escapeChar := rfl
    rw [hstep]
    rcases escapeChar_block c with ⟨tail, he, ht, hent⟩ | ⟨he, hc⟩
    · exact ampOk_block _ tail he ht hent _ ih
    · rw [he]
      exact ampOk_cons c hc _ ih

lemma escape_no_raw (l : List Char) :
    ∀ c ∈ l.flatMap escapeChar,
      c ≠ '<' ∧ c ≠ '>' ∧ c ≠ '"' ∧ c ≠ Char.ofNat 39 := by
  induction l with
  | nil =>
    intro c hc
    exact absurd hc (by simp)
  | cons a t ih =>
    intro c hc
    have hstep : (a :: t).flatMap escapeChar =
        escapeChar a ++ t.flatMap escapeChar := rfl
    rw [hstep] at hc
    rcases List.mem_append.mp hc with hc | hc
    · revert hc
      unfold escapeChar
      split_ifs with h1 h2 h3 h4 h5 <;> intro hc
      · fin_cases hc <;> decide
      · fin_cases hc <;> decide
      · fin_cases hc <;> decide
      · fin_cases hc <;> decide
      · fin_cases hc <;> decide
      · simp only [List.mem_singleton] at hc
        subst hc
        exact ⟨h2, h3, h4, h5⟩
    · exact ih c hc

lemma escape_id (l : List Char)
    (h : ∀ c ∈ l, c ≠ '&' ∧ c ≠ '<' ∧ c ≠ '>' ∧ c ≠ '"' ∧
      c ≠ Char.ofNat 39) :
    l.flatMap escapeChar = l := by
  induction l with
  | nil => rfl
  | cons a t ih =>
    have ha := h a (List.mem_cons_self a t)
    have hstep : (a :: t).flatMap escapeChar =
        escapeChar a ++ t.flatMap escapeChar := rfl
    rw [hstep]
    have hea : escapeChar a = [a] := by
      simp [escapeChar, ha.1, ha.2.1, ha.2.2.1, ha.2.2.2.1, ha.2.2.2.2]
    rw [hea, ih (fun c hc => h c (List.mem_cons_of_mem a hc))]
    rfl

/-- Claim C8: `escapeHtml` replaces each of the five reserved markup
characters by its entity and leaves everything else unchanged; its output
contains no raw `<`, `>`, double quote or apostrophe, and every ampersand
in the output begins one of the five entities. -/
theorem c8_escapeHtml_reserved (s : String) :
    (escapeHtml s).data = s.data.flatMap escapeChar ∧
    (∀ c ∈ (escapeHtml s).data,
      c ≠ '<' ∧ c ≠ '>' ∧ c ≠ '"' ∧ c ≠ Char.ofNat 39) ∧
    ampOk (escapeHtml s).data ∧
    ((∀ c ∈ s.data, c ≠ '&' ∧ c ≠ '<' ∧ c ≠ '>' ∧ c ≠ '"' ∧
        c ≠ Char.ofNat 39) →
      escapeHtml s = s) := by
  refine ⟨rfl, ?_, ?_, ?_⟩
  · intro c hc
    exact escape_no_raw s.data c hc
  · exact escape_ampOk s.data
  · intro h
    obtain ⟨d⟩ := s
    show String.mk (d.flatMap escapeChar) = ⟨d⟩
    rw [escape_id d h]

/-- Witness for C8: a reserved-free string is left unchanged, and the
spec's example input is fully escaped. -/
theorem c8_witness :
    escapeHtml "abc" = "abc" ∧
    escapeHtml "<script>" = "&lt;script&gt;" :=
  ⟨(c8_escapeHtml_reserved "abc").2.2.2 (by decide), by decide⟩

/-- Counterexample for C1: for a single timed-out attempt the live fold
increments `failed` while the static fold increments `interrupted`, and for
a flaky test the live fold additionally increments `passed` — so the two
paths do not choose equal counter increments for every logical test. -/
theorem c1_counterexample :
    normalizeTest "T1" "f.spec.ts" "Suite" tTimedOut = some recTimedOut ∧
    (onTestEndStep zeroCounters .timedOut 0 100).2 ≠
      staticFold zeroCounters recTimedOut ∧
    normalizeTest "T2" "f.spec.ts" "Suite" tFlaky = some recFlaky ∧
    (onTestEndStep zeroCounters .passed 1 70).2 ≠
      staticFold zeroCounters recFlaky := by
  decide

/-- Claim C1 (amended): for every logical test whose last attempt carries a
raw runner status other than `timedOut` and which is not flaky (it is not
the case that there is more than one attempt and the last passed), the live
fold and the static fold choose equal counter increments. -/
theorem c1_amended_increment_agreement (t : PWTest) (st fn cp : String)
    (lr : TestResult) (rec : Record) (c : Counters)
    (hlast : t.results.getLast? = some lr)
    (hrec : normalizeTest st fn cp t = some rec)
    (hraw : lr.status ≠ .flaky)
    (hnt : lr.status ≠ .timedOut)
    (hnf : ¬(1 < t.results.length ∧ lr.status = .passed)) :
    (onTestEndStep c lr.status (t.results.length - 1) lr.duration).2 =
      staticFold c rec := by
  unfold normalizeTest at hrec
  rw [hlast] at hrec
  simp only [Option.some.injEq] at hrec
  subst hrec
  have hflaky : (decide (1 < t.results.length) &&
      decide (lr.status = Status.passed)) = false := by
    by_cases h1 : 1 < t.results.length
    · have h2 : lr.status ≠ .passed := fun h => hnf ⟨h1, h⟩
      simp [h2]
    · simp [h1]
  cases hs : lr.status with
  | passed =>
    have hlen : ¬ 1 < t.results.length := fun h => hnf ⟨h, hs⟩
    have hle : t.results.length ≤ 1 := by omega
    have hr0 : t.results.length - 1 = 0 := by omega
    rw [hs] at hflaky
    simp [onTestEndStep, staticFold, hflaky, hs, hr0, hlen, hle]
  | failed =>
    rw [hs] at hflaky
    simp [onTestEndStep, staticFold, hflaky, hs]
  | skipped =>
    rw [hs] at hflaky
    simp [onTestEndStep, staticFold, hflaky, hs]
  | timedOut => exact absurd hs hnt
  | interrupted =>
    rw [hs] at hflaky
    simp [onTestEndStep, staticFold, hflaky, hs]
  | flaky => exact absurd hs hraw

/-- Witness for C1 (amended): a single failed attempt gets identical
counter increments from the live and static folds. -/
theorem c1_witness :
    (onTestEndStep zeroCounters .failed 0 30).2 =
      staticFold zeroCounters ⟨"i", "t", "f", "p", .failed, 30, 0, false⟩ := by
  have h := c1_amended_increment_agreement ⟨"i", "t", [⟨.failed, 30⟩]⟩
    "t" "f" "p" ⟨.failed, 30⟩ ⟨"i", "t", "f", "p", .failed, 30, 0, false⟩
    zeroCounters (by decide) (by decide) (by decide) (by decide) (by decide)
  exact h

/-- Counterexample for C2: the static fold counts a timed-out test under
`interrupted`, not `failed`. -/
theorem c2_counterexample :
    normalizeTest "T1" "f.spec.ts" "Suite" tTimedOut = some recTimedOut ∧
    recTimedOut.status = .timedOut ∧
    (staticFold zeroCounters recTimedOut).failed = 0 ∧
    (staticFold zeroCounters recTimedOut).interrupted = 1 := by
  decide

/-- Claim C2 (amended): for a logical test whose last attempt timed out,
the live fold counts it as failed while the static fold counts it as
interrupted, and in both source modes the record retains the raw
sub-status `timedOut` for display. -/
theorem c2_amended_timedOut_counting (t : PWTest) (st fn cp : String)
    (lr : TestResult) (rec : Record) (c : Counters)
    (hlast : t.results.getLast? = some lr)
    (hts : lr.status = .timedOut)
    (hrec : normalizeTest st fn cp t = some rec) :
    rec.status = .timedOut ∧
    (onTestEndStep c lr.status (t.results.length - 1) lr.duration).1.status =
      .timedOut ∧
    (onTestEndStep c lr.status (t.results.length - 1) lr.duration).2 =
      { c with failed := c.failed + 1, total := c.total + 1,
               duration := c.duration + lr.duration } ∧
    staticFold c rec =
      { c with interrupted := c.interrupted + 1, total := c.total + 1,
               duration := c.duration + lr.duration } := by
  unfold normalizeTest at hrec
  rw [hlast] at hrec
  simp only [Option.some.injEq] at hrec
  subst hrec
  refine ⟨?_, ?_, ?_, ?_⟩ <;> simp [onTestEndStep, staticFold, hts]

/-- Witness for C2 (amended): the single timed-out attempt. -/
theorem c2_witness :
    recTimedOut.status = .timedOut ∧
    (onTestEndStep zeroCounters .timedOut 0 100).1.status = .timedOut ∧
    (onTestEndStep zeroCounters .timedOut 0 100).2 =
      { zeroCounters with failed := 1, total := 1, duration := 100 } ∧
    staticFold zeroCounters recTimedOut =
      { zeroCounters with interrupted := 1, total := 1, duration := 100 } := by
  have h := c2_amended_timedOut_counting tTimedOut "T1" "f.spec.ts" "Suite"
    ⟨.timedOut, 100⟩ recTimedOut zeroCounters (by decide) (by decide)
    (by decide)
  exact h

/-- Counterexample for C4: folding a flaky record into the static
aggregation increments only `flaky` — the `passed` counter stays at zero,
unlike the live path. -/
theorem c4_counterexample :
    normalizeTest "T2" "f.spec.ts" "Suite" tFlaky = some recFlaky ∧
    recFlaky.isFlaky = true ∧
    (staticFold zeroCounters recFlaky).flaky = 1 ∧
    (staticFold zeroCounters recFlaky).passed = 0 ∧
    (onTestEndStep zeroCounters .passed 1 70).2.passed = 1 := by
  decide

/-- Claim C4 (amended): for a flaky record, the live fold increments both
`flaky` and `passed` by one, while the static fold increments only `flaky`
and leaves `passed` unchanged (total and duration increase in both). -/
theorem c4_amended_flaky_counting (t : PWTest) (st fn cp : String)
    (lr : TestResult) (rec : Record) (c : Counters)
    (hlast : t.results.getLast? = some lr)
    (hrec : normalizeTest st fn cp t = some rec)
    (hfl : rec.isFlaky = true) :
    staticFold c rec =
      { c with flaky := c.flaky + 1, total := c.total + 1,
               duration := c.duration + lr.duration } ∧
    (onTestEndStep c lr.status (t.results.length - 1) lr.duration).2 =
      { c with flaky := c.flaky + 1, passed := c.passed + 1,
               total := c.total + 1, duration := c.duration + lr.duration } := by
  unfold normalizeTest at hrec
  rw [hlast] at hrec
  simp only [Option.some.injEq] at hrec
  subst hrec
  simp only [Bool.and_eq_true, decide_eq_true_eq] at hfl
  obtain ⟨hlen, hp⟩ := hfl
  constructor
  · simp [staticFold, hlen, hp]
  · have hr : 0 < t.results.length - 1 := by omega
    simp [onTestEndStep, hp, hr]

/-- Witness for C4 (amended): the failed-then-passed flaky test. -/
theorem c4_witness :
    staticFold zeroCounters recFlaky =
      { zeroCounters with flaky := 1, total := 1, duration := 70 } ∧
    (onTestEndStep zeroCounters .passed 1 70).2 =
      { zeroCounters with
          flaky := 1, passed := 1, total := 1, duration := 70 } := by
  have h := c4_amended_flaky_counting tFlaky "T2" "f.spec.ts" "Suite"
    ⟨.passed, 70⟩ recFlaky zeroCounters (by decide) (by decide) (by decide)
  exact h
